import Mathlib

/-!
Verification development for the street-segment processor
(`src/segment_processor/main.py`).

The program converts a road-network graph into line features, assigning each
to an administrative ward and splitting edges that cross ward boundaries,
optionally enriching each feature with nearby postcodes.

Geometry objects (shapely `LineString`s and ward polygons) and their
operations (`intersects`, `intersection`, `length`, `coords`, plus the
`STRtree` spatial index) are external library collaborators; they are
embedded as an abstract backend `GeoBackend`, and — for the geometric claims —
a point-set semantics `GeoSem` stating the library's documented behaviour as
hypotheses.  A small executable instance `toyB` is used for concrete runs.
Coordinates are embedded as exact rationals.
-/

namespace SegmentProcessor

/-- A coordinate pair (longitude, latitude), embedding Python floats exactly. -/
abbrev Pt := ℚ × ℚ

/-! ### Substring matching used by the heuristic column discovery -/

/-- Does the first character list occur at the head of the second? -/
def startsWithL : List Char → List Char → Bool
  | [], _ => true
  | _ :: _, [] => false
  | a :: as, b :: bs => (a == b) && startsWithL as bs

/-- Does the first character list occur anywhere inside the second?
Embeds Python's `needle in haystack` substring test. -/
def containsSub (n : List Char) : List Char → Bool
  | [] => startsWithL n []
  | b :: bs => startsWithL n (b :: bs) || containsSub n bs

/-- Python's `needle in haystack` on strings. -/
def hasSub (needle hay : String) : Bool :=
  containsSub needle.toList hay.toList

/-- `'WD' in col and 'NM' in col and 'NMW' not in col` (main.py line 148). -/
def isWardNameCol (c : String) : Bool :=
  hasSub "WD" c && hasSub "NM" c && !hasSub "NMW" c

/-- `'LAD' in col and 'NM' in col and 'NMW' not in col` (main.py line 159). -/
def isLadNameCol (c : String) : Bool :=
  hasSub "LAD" c && hasSub "NM" c && !hasSub "NMW" c

/-- Ward-name column discovery (main.py lines 146-154): first matching column,
else fall back to the first non-geometry column; Python's `[...][0]` raises
`IndexError` when that list is empty, embedded as `Except.error`. -/
def pickWardNameCol (cols : List String) : Except String String :=
  match cols.find? isWardNameCol with
  | some c => .ok c
  | none =>
    match (cols.filter fun c => c != "geometry").head? with
    | some c => .ok c
    | none => .error "IndexError: list index out of range"

/-- LAD-name column discovery (main.py lines 156-164): first matching column,
else `raise ValueError(...)`. -/
def pickLadNameCol (cols : List String) : Except String String :=
  match cols.find? isLadNameCol with
  | some c => .ok c
  | none => .error "Could not find LAD name column (LAD*NM) in the data"

/-! ### Abstract geometry backend (shapely / geopandas collaborators) -/

/-- Observable shape of a shapely `geometry.intersection(ward_geom)` result,
as the code discriminates it (main.py lines 258-269): `is_empty`, then
`geom_type` equal to `LineString`, `MultiLineString`, or anything else. -/
inductive IRes (G : Type) where
  | empty
  | line (l : G)
  | multi (ls : List G)
  | other
  deriving DecidableEq

/-- The geometry operations the splitter calls on the external library.
`intersection` returns `none` when the library raises (the `except` branch,
main.py lines 294-297). -/
structure GeoBackend (G R : Type) where
  intersects : R → G → Bool
  intersection : G → R → Option (IRes G)
  length : G → ℚ
  coords : G → List Pt
  mkLine : Pt → Pt → G

/-- One row of the ward GeoDataFrame: attribute lookup by column name plus
the ward polygon. -/
structure WardRow (R : Type) where
  attrs : String → String
  geom : R

/-- The ward GeoDataFrame: its column names and its rows in frame order. -/
structure WardTable (R : Type) where
  columns : List String
  rows : List (WardRow R)

/-- An OSM `osmid` tag: a single value or a list. -/
inductive OsmId where
  | one (n : ℤ)
  | many (ns : List ℤ)
  deriving DecidableEq

/-- One edge of the OSMnx multigraph with the tags the splitter reads. -/
structure EdgeData (G : Type) where
  u : Nat
  v : Nat
  geometry : Option G
  osmid : Option OsmId
  name : Option String
  highway : Option String

/-- An output feature as built by the splitter (main.py lines 227-243 and
274-290).  `geom` is the shapely line object whose coordinate list is
serialized into the feature; the embedding keeps it alongside `coords` so the
geometric claims can speak about the emitted geometry. -/
structure SegmentFeature (G : Type) where
  sid : Nat
  id : String
  color : String
  osm_id : Option OsmId
  name : String
  highway : String
  lad : String
  ward : String
  postcodes : List String
  coords : List Pt
  geom : G
  deriving DecidableEq

/-! ### Postcode loading and the spec-modelled spatial query -/

/-- Squared Euclidean distance between two coordinate pairs. -/
def distSq (p q : Pt) : ℚ :=
  (p.1 - q.1) * (p.1 - q.1) + (p.2 - q.2) * (p.2 - q.2)

/-- Is point `p` within distance `d` of the closed segment from `a` to `b`?
Division-free rational test via the projection parameter's sign. -/
def segWithin (a b p : Pt) (d : ℚ) : Bool :=
  let abx := b.1 - a.1
  let aby := b.2 - a.2
  let apx := p.1 - a.1
  let apy := p.2 - a.2
  let bpx := p.1 - b.1
  let bpy := p.2 - b.2
  if apx * abx + apy * aby ≤ 0 then decide (distSq a p ≤ d * d)
  else if 0 ≤ bpx * abx + bpy * aby then decide (distSq b p ≤ d * d)
  else decide ((abx * apy - aby * apx) * (abx * apy - aby * apx)
      ≤ d * d * (abx * abx + aby * aby))

/-- Consecutive vertex pairs of a polyline. -/
def pairsOf (l : List Pt) : List (Pt × Pt) := l.zip l.tail

/-- Modelled from the spec: the spatial index and the geometric buffer
(shapely `STRtree` and `geom.buffer`) are library code absent from `src/`.
Per §4.4 of the spec, querying the index with the buffered geometry returns
all indexed points whose location falls within it, i.e. within the buffer
radius of the polyline: here, within distance `d` of some segment of the
polyline with vertex list `cs`. -/
def withinBuffer (d : ℚ) (cs : List Pt) (p : Pt) : Bool :=
  (pairsOf cs).any fun ab => segWithin ab.1 ab.2 p d

/-- Python's `sorted(set(...))` on strings: distinct elements in ascending
order. -/
def sortedDedup (l : List String) : List String :=
  List.insertionSort (· ≤ ·) l.dedup

/-- One raw row of the ONS postcode file: LAD code (`LAD25CD`), postcode
(`PCDS`), and point location. -/
structure PostcodeRow where
  lad : String
  code : String
  loc : Pt

/-- `get_postcode_centroids` (main.py lines 28-56): `none` input models a
missing backing file, in which case the loader returns `None` instead of
raising; otherwise the rows are filtered to the given LAD code.  (The CRS
reprojection is an external transform and is not modelled.) -/
def get_postcode_centroids (fileRows : Option (List PostcodeRow))
    (lad_code : String) : Option (List (Pt × String)) :=
  match fileRows with
  | none => none
  | some rows =>
    some ((rows.filter fun r => r.lad == lad_code).map fun r => (r.loc, r.code))

/-- `find_postcodes_for_geometry` (main.py lines 183-193).  The spatial index
exists only when a postcode frame was supplied and is nonempty (lines
176-181); when it is absent the query returns `[]`.  Otherwise the result is
`sorted(set(codes of points within the buffered geometry))`, with the index
query spec-modelled by `withinBuffer`. -/
def find_postcodes_for_geometry {G R : Type} (B : GeoBackend G R)
    (pgdf : Option (List (Pt × String))) (bufferDegrees : ℚ) (g : G) :
    List String :=
  match pgdf with
  | none => []
  | some pcs =>
    if pcs.isEmpty then []
    else
      sortedDedup
        ((pcs.filter fun pc => withinBuffer bufferDegrees (B.coords g) pc.1).map
          fun pc => pc.2)

/-! ### The segment splitter -/

/-- Build one output feature (the dict literals at main.py lines 227-243 and
274-290). -/
def mkSegment {G R : Type} (B : GeoBackend G R) (e : EdgeData G)
    (wardCol ladCol : String) (w : WardRow R) (pcs : List String) (sid : Nat)
    (g : G) : SegmentFeature G :=
  { sid := sid
    id := "segment_" ++ toString sid
    color := "#FF0000"
    osm_id := e.osmid
    name := e.name.getD "Unnamed"
    highway := e.highway.getD "unknown"
    lad := w.attrs ladCol
    ward := w.attrs wardCol
    postcodes := pcs
    coords := B.coords g
    geom := g }

/-- Resolve an edge's geometry (main.py lines 202-212): the explicit
`geometry` tag if present, else a straight line between the endpoint nodes. -/
def resolveGeometry {G R : Type} (B : GeoBackend G R) (nodes : Nat → Pt)
    (e : EdgeData G) : G :=
  match e.geometry with
  | some g => g
  | none => B.mkLine (nodes e.u) (nodes e.v)

/-- The candidate lines produced for one ward in the multi-ward branch
(main.py lines 255-269): empty/other results and a raised exception yield
nothing, a line yields itself, a multi-line yields its parts. -/
def wardLines {G R : Type} (B : GeoBackend G R) (g : G) (w : WardRow R) :
    List G :=
  match B.intersection g w.geom with
  | none => []
  | some .empty => []
  | some (.line l) => [l]
  | some (.multi ls) => ls
  | some .other => []

/-- The candidate lines that survive the `line.length > 0` check
(main.py line 272). -/
def keptLines {G R : Type} (B : GeoBackend G R) (g : G) (w : WardRow R) :
    List G :=
  (wardLines B g w).filter fun l => decide (0 < B.length l)

/-- All (ward, line) pairs emitted in the multi-ward branch, in iteration
order (outer loop over intersecting wards, inner loop over line parts). -/
def multiParts {G R : Type} (B : GeoBackend G R) (g : G)
    (ws : List (WardRow R)) : List (WardRow R × G) :=
  (ws.map fun w => (keptLines B g w).map fun l => (w, l)).flatten

/-- Emit a list of items with consecutive identifiers starting at `sid`
(the `segment_id += 1` after each `segments.append`). -/
def emitWithIds {α β : Type} (mk : Nat → α → β) : Nat → List α → List β
  | _, [] => []
  | sid, x :: xs => mk sid x :: emitWithIds mk (sid + 1) xs

/-- `intersecting_wards = wards_gdf[wards_gdf.intersects(geometry)]`
(main.py line 215): the ward rows whose polygon intersects the geometry, in
frame order. -/
def matchedWards {G R : Type} (B : GeoBackend G R) (rows : List (WardRow R))
    (g : G) : List (WardRow R) :=
  rows.filter fun w => B.intersects w.geom g

/-- The body of the edge loop (main.py lines 201-297) for one edge, with
`sid` the current value of `segment_id` and `fpc` the
`find_postcodes_for_geometry` closure.  Zero intersecting wards: nothing is
emitted; exactly one: the full resolved geometry is emitted unmodified;
two or more: the surviving per-ward intersection parts are emitted. -/
def processEdge {G R : Type} (B : GeoBackend G R) (wardCol ladCol : String)
    (rows : List (WardRow R)) (fpc : G → List String) (nodes : Nat → Pt)
    (sid : Nat) (e : EdgeData G) : List (SegmentFeature G) :=
  let geometry := resolveGeometry B nodes e
  match matchedWards B rows geometry with
  | [] => []
  | [w] => [mkSegment B e wardCol ladCol w (fpc geometry) sid geometry]
  | _ =>
    emitWithIds
      (fun i wl => mkSegment B e wardCol ladCol wl.1 (fpc wl.2) i wl.2) sid
      (multiParts B geometry (matchedWards B rows geometry))

/-- The edge loop: each edge appends its features and advances `segment_id`
by the number emitted. -/
def emitAll {G R : Type} (B : GeoBackend G R) (wardCol ladCol : String)
    (rows : List (WardRow R)) (fpc : G → List String) (nodes : Nat → Pt) :
    Nat → List (EdgeData G) → List (SegmentFeature G)
  | _, [] => []
  | sid, e :: es =>
    let s := processEdge B wardCol ladCol rows fpc nodes sid e
    s ++ emitAll B wardCol ladCol rows fpc nodes (sid + s.length) es

/-- `graph_to_segments` (main.py lines 127-304): discover the ward and LAD
name columns, convert the buffer to degrees (`buffer_meters / 111000`), then
run the edge loop with `segment_id` starting at 0. -/
def graph_to_segments {G R : Type} (B : GeoBackend G R) (wards : WardTable R)
    (pgdf : Option (List (Pt × String))) (buffer_meters : ℚ)
    (nodes : Nat → Pt) (edges : List (EdgeData G)) :
    Except String (List (SegmentFeature G)) :=
  match pickWardNameCol wards.columns with
  | .error msg => .error msg
  | .ok wardCol =>
    match pickLadNameCol wards.columns with
    | .error msg => .error msg
    | .ok ladCol =>
      .ok (emitAll B wardCol ladCol wards.rows
        (find_postcodes_for_geometry B pgdf (buffer_meters / 111000)) nodes 0
        edges)

/-! ### Point-set semantics of the geometry library

The shapely operations the splitter calls carry a documented point-set
meaning; `GeoSem` states it for a backend, over an abstract space `X`:
`intersects` tests nonempty overlap, and a successful `intersection` result
carves the overlap into its parts. -/

/-- Point-set semantics for a geometry backend. -/
structure GeoSem (G R X : Type) (B : GeoBackend G R) where
  gpts : G → Set X
  rpts : R → Set X
  intersects_iff : ∀ r g, B.intersects r g = true ↔ (gpts g ∩ rpts r).Nonempty
  inter_line : ∀ g r l, B.intersection g r = some (.line l) →
    gpts l = gpts g ∩ rpts r
  inter_multi : ∀ g r ls, B.intersection g r = some (.multi ls) →
    (⋃ l ∈ ls, gpts l) = gpts g ∩ rpts r
  inter_empty : ∀ g r, B.intersection g r = some .empty →
    gpts g ∩ rpts r = ∅

/-- Is a ward's intersection result well behaved: it did not raise, is a
line or multi-line (no point/polygon degeneracies), and every resulting part
has positive length?  Under these conditions no portion of the overlap with
that ward is discarded. -/
def cleanB {G R : Type} (B : GeoBackend G R) (g : G) (w : WardRow R) : Bool :=
  match B.intersection g w.geom with
  | some .empty => true
  | some (.line l) => decide (0 < B.length l)
  | some (.multi ls) => ls.all fun l => decide (0 < B.length l)
  | _ => false

/-! ### A concrete executable geometry instance

`toyB` realises the backend on a discrete geometry: a "line" or ward region
is a finite list of rational coordinate sites, its point set is the set of
its sites, intersection filters sites, and the length is one less than the
number of distinct sites (so a degenerate single-site line has length 0,
like a `LineString` of two equal points). -/

/-- Toy geometry: a finite list of sites. -/
abbrev ToyG := List Pt

/-- The toy backend used for concrete runs. -/
def toyB : GeoBackend ToyG ToyG where
  intersects r g := g.any fun p => decide (p ∈ r)
  intersection g r :=
    let c := g.filter fun p => decide (p ∈ r)
    if c.isEmpty then some .empty else some (.line c)
  length g := mkRat ((g.dedup.length : ℤ) - 1) 1
  coords g := g
  mkLine p q := [p, q]

/-- The point-set reading of the toy backend. -/
def toySem : GeoSem ToyG ToyG Pt toyB where
  gpts g := { p | p ∈ g }
  rpts r := { p | p ∈ r }
  intersects_iff := by
    intro r g
    simp [toyB, List.any_eq_true, Set.Nonempty, Set.inter_def]
  inter_line := by
    intro g r l h
    simp only [toyB] at h
    by_cases hc : (g.filter fun p => decide (p ∈ r)).isEmpty
    · simp [hc] at h
    · simp [hc] at h
      subst h
      ext p
      simp [List.mem_filter, Set.mem_inter_iff]
  inter_multi := by
    intro g r ls h
    simp only [toyB] at h
    by_cases hc : (g.filter fun p => decide (p ∈ r)).isEmpty
    · simp [hc] at h
    · simp [hc] at h
  inter_empty := by
    intro g r h
    simp only [toyB] at h
    by_cases hc : (g.filter fun p => decide (p ∈ r)).isEmpty
    · ext p
      simp only [Set.mem_inter_iff, Set.mem_empty_iff_false, iff_false]
      rintro ⟨h1, h2⟩
      rw [List.isEmpty_iff, List.eq_nil_iff_forall_not_mem] at hc
      exact hc p (List.mem_filter.mpr ⟨h1, by simpa using h2⟩)
    · simp [hc] at h

/-- Replace a feature's postcode list by the empty list, keeping everything
else; a run without postcode data produces exactly the postcode-stripped
features of the same run with data. -/
def clearPostcodes {G : Type} (s : SegmentFeature G) : SegmentFeature G :=
  { s with postcodes := [] }

/-! ### Concrete data for the toy runs -/

/-- A ward named Alperton covering sites (0,0) and (1,0). -/
def wardA : WardRow ToyG :=
  { attrs := fun c => if c == "WD23NM" then "Alperton" else "Brent"
    geom := [(0, 0), (1, 0)] }

/-- A ward named Barnhill covering sites (2,0) and (3,0). -/
def wardB : WardRow ToyG :=
  { attrs := fun c => if c == "WD23NM" then "Barnhill" else "Brent"
    geom := [(2, 0), (3, 0)] }

/-- A two-ward table with the May-2023 column names. -/
def wTab : WardTable ToyG :=
  { columns := ["WD23NM", "LAD23NM", "geometry"], rows := [wardA, wardB] }

/-- A ward table whose columns defeat the ward-name heuristic but contain a
LAD column, so the fallback ward column is "FID". -/
def wTabFallback : WardTable ToyG :=
  { columns := ["FID", "LAD23NM", "geometry"], rows := [wardA, wardB] }

/-- A ward table with neither a ward-name nor a LAD-name column. -/
def wTabNoLad : WardTable ToyG :=
  { columns := ["objectid", "geometry"], rows := [wardA, wardB] }

/-- Node coordinates for the toy graph: every node sits at the origin. -/
def nodesW : Nat → Pt := fun _ => (0, 0)

/-- An edge lying inside `wardA` only. -/
def edgeSingle : EdgeData ToyG :=
  { u := 0, v := 1, geometry := some [(0, 0), (1, 0)]
    osmid := some (.one 101), name := some "Ealing Road"
    highway := some "residential" }

/-- An edge spanning both wards. -/
def edgeMulti : EdgeData ToyG :=
  { u := 0, v := 3, geometry := some [(0, 0), (1, 0), (2, 0), (3, 0)]
    osmid := none, name := none, highway := none }

/-- An edge outside every ward. -/
def edgeOutside : EdgeData ToyG :=
  { u := 0, v := 1, geometry := some [(9, 9), (9, 8)]
    osmid := none, name := none, highway := none }

/-- A degenerate self-loop with no explicit geometry: its resolved geometry
is the zero-length line from the node to itself, inside `wardA` only. -/
def edgeLoop : EdgeData ToyG :=
  { u := 7, v := 7, geometry := none, osmid := none, name := none
    highway := none }

/-- An edge intersecting only `wardA` but extending beyond it: site (2,0)
is outside every ward. -/
def edgeCross : EdgeData ToyG :=
  { u := 0, v := 2, geometry := some [(0, 0), (1, 0), (2, 0)]
    osmid := none, name := none, highway := none }

/-- Postcode points: two codes on the single edge, one far away. -/
def pcsW : List (Pt × String) :=
  [((0, 0), "HA0 1AA"), ((1, 0), "HA0 1AA"), ((50, 50), "ZZ9 9ZZ")]

/-- A postcode file row for a different district. -/
def pcOtherLad : PostcodeRow := { lad := "E09000007", code := "NW1 1AA", loc := (10, 10) }

/-- A placeholder feature for total list accessors. -/
def dummySeg : SegmentFeature ToyG :=
  { sid := 0, id := "", color := "", osm_id := none, name := "", highway := ""
    lad := "", ward := "", postcodes := [], coords := [], geom := [] }

/-- The features of the toy run used by the identifier claim. -/
def c4segs : List (SegmentFeature ToyG) :=
  (graph_to_segments toyB wTab none 30 nodesW
      [edgeSingle, edgeMulti, edgeOutside]).toOption.getD []

/-- The features of the toy run with postcode data. -/
def c3segs : List (SegmentFeature ToyG) :=
  (graph_to_segments toyB wTab (some pcsW) 111000 nodesW
      [edgeSingle]).toOption.getD []

/-- The first feature of that run. -/
def c3s0 : SegmentFeature ToyG := c3segs.headD dummySeg

/-! ### Helper lemmas about the emission machinery -/

theorem emitWithIds_length {α β : Type} (mk : Nat → α → β) (sid : Nat)
    (xs : List α) : (emitWithIds mk sid xs).length = xs.length := by
  induction xs generalizing sid with
  | nil => rfl
  | cons x xs ih => simp [emitWithIds, ih]

theorem mem_emitWithIds {α β : Type} {mk : Nat → α → β} {sid : Nat}
    {xs : List α} {s : β} (h : s ∈ emitWithIds mk sid xs) :
    ∃ n x, x ∈ xs ∧ s = mk n x := by
  induction xs generalizing sid with
  | nil => simp [emitWithIds] at h
  | cons x xs ih =>
    simp only [emitWithIds, List.mem_cons] at h
    rcases h with h | h
    · exact ⟨sid, x, List.mem_cons_self x xs, h⟩
    · rcases ih h with ⟨n, y, hy, hs⟩
      exact ⟨n, y, List.mem_cons_of_mem _ hy, hs⟩

theorem map_emitWithIds {α β γ : Type} (f : β → γ) (mk : Nat → α → β)
    (sid : Nat) (xs : List α) :
    (emitWithIds mk sid xs).map f = emitWithIds (fun i x => f (mk i x)) sid xs := by
  induction xs generalizing sid with
  | nil => rfl
  | cons x xs ih => simp [emitWithIds, ih]

theorem sids_emitWithIds {G : Type} {α : Type} (mk : Nat → α → SegmentFeature G)
    (h : ∀ i x, (mk i x).sid = i) (sid : Nat) (xs : List α) :
    (emitWithIds mk sid xs).map (fun s => s.sid) = List.range' sid xs.length := by
  induction xs generalizing sid with
  | nil => rfl
  | cons x xs ih =>
    simp only [emitWithIds, List.map_cons, List.length_cons, List.range'_succ]
    rw [h sid x, ih (sid + 1)]

theorem mem_multiParts {G R : Type} {B : GeoBackend G R} {g : G}
    {ws : List (WardRow R)} {wl : WardRow R × G}
    (h : wl ∈ multiParts B g ws) : wl.1 ∈ ws ∧ wl.2 ∈ keptLines B g wl.1 := by
  simp only [multiParts, List.mem_flatten, List.mem_map] at h
  rcases h with ⟨l, ⟨w, hw, rfl⟩, hl⟩
  rcases List.mem_map.mp hl with ⟨x, hx, rfl⟩
  exact ⟨hw, hx⟩

theorem processEdge_nil {G R : Type} (B : GeoBackend G R)
    (wardCol ladCol : String) (rows : List (WardRow R))
    (fpc : G → List String) (nodes : Nat → Pt) (sid : Nat) (e : EdgeData G)
    (h : matchedWards B rows (resolveGeometry B nodes e) = []) :
    processEdge B wardCol ladCol rows fpc nodes sid e = [] := by
  simp [processEdge, h]

theorem processEdge_single {G R : Type} (B : GeoBackend G R)
    (wardCol ladCol : String) (rows : List (WardRow R))
    (fpc : G → List String) (nodes : Nat → Pt) (sid : Nat) (e : EdgeData G)
    (w : WardRow R)
    (h : matchedWards B rows (resolveGeometry B nodes e) = [w]) :
    processEdge B wardCol ladCol rows fpc nodes sid e
      = [mkSegment B e wardCol ladCol w (fpc (resolveGeometry B nodes e)) sid
          (resolveGeometry B nodes e)] := by
  simp [processEdge, h]

theorem processEdge_multi {G R : Type} (B : GeoBackend G R)
    (wardCol ladCol : String) (rows : List (WardRow R))
    (fpc : G → List String) (nodes : Nat → Pt) (sid : Nat) (e : EdgeData G)
    (a b : WardRow R) (t : List (WardRow R))
    (h : matchedWards B rows (resolveGeometry B nodes e) = a :: b :: t) :
    processEdge B wardCol ladCol rows fpc nodes sid e
      = emitWithIds
          (fun i wl => mkSegment B e wardCol ladCol wl.1 (fpc wl.2) i wl.2) sid
          (multiParts B (resolveGeometry B nodes e) (a :: b :: t)) := by
  simp [processEdge, h]

theorem processEdge_sids {G R : Type} (B : GeoBackend G R)
    (wardCol ladCol : String) (rows : List (WardRow R))
    (fpc : G → List String) (nodes : Nat → Pt) (sid : Nat) (e : EdgeData G) :
    (processEdge B wardCol ladCol rows fpc nodes sid e).map (fun s => s.sid)
      = List.range' sid (processEdge B wardCol ladCol rows fpc nodes sid e).length := by
  rcases hm : matchedWards B rows (resolveGeometry B nodes e) with _ | ⟨a, _ | ⟨b, t⟩⟩
  · rw [processEdge_nil B wardCol ladCol rows fpc nodes sid e hm]; rfl
  · rw [processEdge_single B wardCol ladCol rows fpc nodes sid e a hm]; rfl
  · rw [processEdge_multi B wardCol ladCol rows fpc nodes sid e a b t hm,
      sids_emitWithIds _ (fun i x => rfl), emitWithIds_length]

theorem emitAll_sids {G R : Type} (B : GeoBackend G R)
    (wardCol ladCol : String) (rows : List (WardRow R))
    (fpc : G → List String) (nodes : Nat → Pt) (sid : Nat)
    (es : List (EdgeData G)) :
    (emitAll B wardCol ladCol rows fpc nodes sid es).map (fun s => s.sid)
      = List.range' sid (emitAll B wardCol ladCol rows fpc nodes sid es).length := by
  induction es generalizing sid with
  | nil => rfl
  | cons e es ih =>
    simp only [emitAll, List.map_append, List.length_append]
    rw [processEdge_sids, ih]
    have h2 := List.range'_append sid
      (processEdge B wardCol ladCol rows fpc nodes sid e).length
      (emitAll B wardCol ladCol rows fpc nodes
        (sid + (processEdge B wardCol ladCol rows fpc nodes sid e).length) es).length 1
    simp only [one_mul, Nat.add_comm] at h2 ⊢
    exact h2

theorem processEdge_postcodes {G R : Type} {B : GeoBackend G R}
    {wardCol ladCol : String} {rows : List (WardRow R)}
    {fpc : G → List String} {nodes : Nat → Pt} {sid : Nat} {e : EdgeData G}
    {s : SegmentFeature G}
    (h : s ∈ processEdge B wardCol ladCol rows fpc nodes sid e) :
    s.postcodes = fpc s.geom := by
  rcases hm : matchedWards B rows (resolveGeometry B nodes e) with _ | ⟨a, _ | ⟨b, t⟩⟩
  · rw [processEdge_nil B wardCol ladCol rows fpc nodes sid e hm] at h
    simp at h
  · rw [processEdge_single B wardCol ladCol rows fpc nodes sid e a hm] at h
    simp only [List.mem_singleton] at h
    subst h; rfl
  · rw [processEdge_multi B wardCol ladCol rows fpc nodes sid e a b t hm] at h
    rcases mem_emitWithIds h with ⟨n, x, _, rfl⟩
    rfl

theorem mem_emitAll {G R : Type} {B : GeoBackend G R}
    {wardCol ladCol : String} {rows : List (WardRow R)}
    {fpc : G → List String} {nodes : Nat → Pt} {sid : Nat}
    {es : List (EdgeData G)} {s : SegmentFeature G}
    (h : s ∈ emitAll B wardCol ladCol rows fpc nodes sid es) :
    ∃ sid2 e, e ∈ es ∧ s ∈ processEdge B wardCol ladCol rows fpc nodes sid2 e := by
  induction es generalizing sid with
  | nil => simp [emitAll] at h
  | cons e es ih =>
    simp only [emitAll, List.mem_append] at h
    rcases h with h | h
    · exact ⟨sid, e, List.mem_cons_self e es, h⟩
    · rcases ih h with ⟨sid2, e2, he2, hs⟩
      exact ⟨sid2, e2, List.mem_cons_of_mem _ he2, hs⟩

theorem processEdge_clear {G R : Type} (B : GeoBackend G R)
    (wardCol ladCol : String) (rows : List (WardRow R))
    (fpc : G → List String) (nodes : Nat → Pt) (sid : Nat) (e : EdgeData G) :
    (processEdge B wardCol ladCol rows fpc nodes sid e).map clearPostcodes
      = processEdge B wardCol ladCol rows (fun _ => []) nodes sid e := by
  rcases hm : matchedWards B rows (resolveGeometry B nodes e) with _ | ⟨a, _ | ⟨b, t⟩⟩
  · rw [processEdge_nil B wardCol ladCol rows fpc nodes sid e hm,
      processEdge_nil B wardCol ladCol rows _ nodes sid e hm]
    rfl
  · rw [processEdge_single B wardCol ladCol rows fpc nodes sid e a hm,
      processEdge_single B wardCol ladCol rows _ nodes sid e a hm]
    simp [mkSegment, clearPostcodes]
  · rw [processEdge_multi B wardCol ladCol rows fpc nodes sid e a b t hm,
      processEdge_multi B wardCol ladCol rows _ nodes sid e a b t hm,
      map_emitWithIds]
    have hf : (fun (i : Nat) (wl : WardRow R × G) =>
        clearPostcodes (mkSegment B e wardCol ladCol wl.1 (fpc wl.2) i wl.2))
        = fun (i : Nat) (wl : WardRow R × G) =>
          mkSegment B e wardCol ladCol wl.1 ((fun _ => ([] : List String)) wl.2) i wl.2 := by
      funext i wl
      simp [mkSegment, clearPostcodes]
    rw [hf]

theorem emitAll_clear {G R : Type} (B : GeoBackend G R)
    (wardCol ladCol : String) (rows : List (WardRow R))
    (fpc : G → List String) (nodes : Nat → Pt) (sid : Nat)
    (es : List (EdgeData G)) :
    (emitAll B wardCol ladCol rows fpc nodes sid es).map clearPostcodes
      = emitAll B wardCol ladCol rows (fun _ => []) nodes sid es := by
  induction es generalizing sid with
  | nil => rfl
  | cons e es ih =>
    have hlen : (processEdge B wardCol ladCol rows (fun _ => ([] : List String))
        nodes sid e).length
        = (processEdge B wardCol ladCol rows fpc nodes sid e).length := by
      rw [← processEdge_clear B wardCol ladCol rows fpc nodes sid e,
        List.length_map]
    simp only [emitAll, List.map_append]
    rw [processEdge_clear, ih, hlen]

/-! ### Lemmas about the postcode query -/

theorem sortedDedup_sorted (l : List String) :
    List.Sorted (· ≤ ·) (sortedDedup l) :=
  List.sorted_insertionSort _ _

theorem sortedDedup_nodup (l : List String) : (sortedDedup l).Nodup :=
  (List.perm_insertionSort _ l.dedup).nodup_iff.mpr l.nodup_dedup

theorem mem_sortedDedup (l : List String) (c : String) :
    c ∈ sortedDedup l ↔ c ∈ l := by
  simp [sortedDedup, List.mem_insertionSort, List.mem_dedup]

theorem mem_find_some {G R : Type} (B : GeoBackend G R)
    (pcs : List (Pt × String)) (bd : ℚ) (g : G) (c : String) (h : pcs ≠ []) :
    c ∈ find_postcodes_for_geometry B (some pcs) bd g
      ↔ ∃ pc ∈ pcs, withinBuffer bd (B.coords g) pc.1 = true ∧ pc.2 = c := by
  simp only [find_postcodes_for_geometry]
  rw [if_neg (by simpa [List.isEmpty_iff] using h), mem_sortedDedup]
  simp only [List.mem_map, List.mem_filter]
  constructor
  · rintro ⟨pc, ⟨hmem, hwb⟩, rfl⟩
    exact ⟨pc, hmem, hwb, rfl⟩
  · rintro ⟨pc, hmem, hwb, rfl⟩
    exact ⟨pc, ⟨hmem, hwb⟩, rfl⟩

theorem segWithin_mono (a b p : Pt) {d1 d2 : ℚ} (h0 : 0 ≤ d1) (h12 : d1 ≤ d2)
    (h : segWithin a b p d1 = true) : segWithin a b p d2 = true := by
  have hdd : d1 * d1 ≤ d2 * d2 := mul_self_le_mul_self h0 h12
  simp only [segWithin] at h ⊢
  split_ifs at h ⊢ with h1 h2
  · rw [decide_eq_true_iff] at h ⊢
    exact le_trans h hdd
  · rw [decide_eq_true_iff] at h ⊢
    exact le_trans h hdd
  · rw [decide_eq_true_iff] at h ⊢
    refine le_trans h (mul_le_mul_of_nonneg_right hdd ?_)
    exact add_nonneg (mul_self_nonneg _) (mul_self_nonneg _)

theorem withinBuffer_mono (cs : List Pt) (p : Pt) {d1 d2 : ℚ} (h0 : 0 ≤ d1)
    (h12 : d1 ≤ d2) (h : withinBuffer d1 cs p = true) :
    withinBuffer d2 cs p = true := by
  simp only [withinBuffer, List.any_eq_true] at h ⊢
  rcases h with ⟨ab, hab, hseg⟩
  exact ⟨ab, hab, segWithin_mono _ _ _ h0 h12 hseg⟩

/-! ### Set-union lemmas for the coverage claim -/

theorem listUnion_cons {α X : Type} (a : α) (l : List α) (f : α → Set X) :
    (⋃ x ∈ (a :: l), f x) = f a ∪ ⋃ x ∈ l, f x := by
  ext p
  simp only [Set.mem_iUnion, Set.mem_union, List.mem_cons]
  constructor
  · rintro ⟨x, rfl | hx, hp⟩
    · exact Or.inl hp
    · exact Or.inr ⟨x, hx, hp⟩
  · rintro (hp | ⟨x, hx, hp⟩)
    · exact ⟨a, Or.inl rfl, hp⟩
    · exact ⟨x, Or.inr hx, hp⟩

theorem listUnion_append {α X : Type} (l1 l2 : List α) (f : α → Set X) :
    (⋃ x ∈ l1 ++ l2, f x) = (⋃ x ∈ l1, f x) ∪ ⋃ x ∈ l2, f x := by
  ext p
  simp only [Set.mem_iUnion, Set.mem_union, List.mem_append]
  constructor
  · rintro ⟨x, hx | hx, hp⟩
    · exact Or.inl ⟨x, hx, hp⟩
    · exact Or.inr ⟨x, hx, hp⟩
  · rintro (⟨x, hx, hp⟩ | ⟨x, hx, hp⟩)
    · exact ⟨x, Or.inl hx, hp⟩
    · exact ⟨x, Or.inr hx, hp⟩

theorem listUnion_map {α β X : Type} (l : List α) (f : α → β) (F : β → Set X) :
    (⋃ y ∈ l.map f, F y) = ⋃ x ∈ l, F (f x) := by
  ext p
  simp only [Set.mem_iUnion, List.mem_map]
  constructor
  · rintro ⟨y, ⟨x, hx, rfl⟩, hp⟩
    exact ⟨x, hx, hp⟩
  · rintro ⟨x, hx, hp⟩
    exact ⟨f x, ⟨x, hx, rfl⟩, hp⟩

theorem biUnion_emitWithIds {α β X : Type} (mk : Nat → α → β) (F : β → Set X)
    (Gf : α → Set X) (hF : ∀ n x, F (mk n x) = Gf x) (sid : Nat)
    (xs : List α) :
    (⋃ s ∈ emitWithIds mk sid xs, F s) = ⋃ x ∈ xs, Gf x := by
  induction xs generalizing sid with
  | nil => simp [emitWithIds]
  | cons x xs ih =>
    simp only [emitWithIds]
    rw [listUnion_cons, listUnion_cons, hF, ih]

theorem keptLines_union {G R X : Type} {B : GeoBackend G R}
    (S : GeoSem G R X B) (g : G) (w : WardRow R) (hc : cleanB B g w = true) :
    (⋃ l ∈ keptLines B g w, S.gpts l) = S.gpts g ∩ S.rpts w.geom := by
  unfold cleanB at hc
  unfold keptLines wardLines
  rcases hi : B.intersection g w.geom with _ | r
  · rw [hi] at hc; simp at hc
  · rw [hi] at hc
    cases r with
    | empty =>
      rw [S.inter_empty g w.geom hi]
      simp
    | line l =>
      simp only at hc
      dsimp only
      have hf : List.filter (fun l2 => decide (0 < B.length l2)) [l] = [l] := by
        simp [hc]
      rw [hf, listUnion_cons]
      simp [S.inter_line g w.geom l hi]
    | multi ls =>
      simp only at hc
      dsimp only
      rw [List.filter_eq_self.mpr (by simpa [List.all_eq_true] using hc)]
      exact S.inter_multi g w.geom ls hi
    | other => simp at hc

theorem matched_union {G R X : Type} {B : GeoBackend G R}
    (S : GeoSem G R X B) (g : G) (rows : List (WardRow R)) :
    (⋃ w ∈ matchedWards B rows g, S.gpts g ∩ S.rpts w.geom)
      = ⋃ w ∈ rows, S.gpts g ∩ S.rpts w.geom := by
  induction rows with
  | nil => simp [matchedWards]
  | cons w rows ih =>
    by_cases hw : B.intersects w.geom g = true
    · have hf : matchedWards B (w :: rows) g = w :: matchedWards B rows g := by
        simp [matchedWards, List.filter_cons, hw]
      rw [hf, listUnion_cons, listUnion_cons, ih]
    · have hemp : S.gpts g ∩ S.rpts w.geom = ∅ := by
        rw [← Set.not_nonempty_iff_eq_empty]
        intro hne
        exact hw ((S.intersects_iff w.geom g).mpr hne)
      have hf : matchedWards B (w :: rows) g = matchedWards B rows g := by
        simp [matchedWards, List.filter_cons, hw]
      rw [hf, listUnion_cons, ih, hemp, Set.empty_union]

theorem multiParts_union {G R X : Type} {B : GeoBackend G R}
    (S : GeoSem G R X B) (g : G) (ws : List (WardRow R))
    (hclean : ∀ w ∈ ws, cleanB B g w = true) :
    (⋃ wl ∈ multiParts B g ws, S.gpts wl.2)
      = ⋃ w ∈ ws, S.gpts g ∩ S.rpts w.geom := by
  induction ws with
  | nil => simp [multiParts]
  | cons w ws ih =>
    simp only [multiParts, List.map_cons, List.flatten_cons]
    rw [listUnion_append, listUnion_cons]
    have h1 : (⋃ wl ∈ (keptLines B g w).map (fun l => (w, l)),
        S.gpts wl.2) = S.gpts g ∩ S.rpts w.geom := by
      rw [listUnion_map]
      exact keptLines_union S g w (hclean w (List.mem_cons_self w ws))
    rw [h1]
    have h2 := ih fun w2 hw2 => hclean w2 (List.mem_cons_of_mem _ hw2)
    simp only [multiParts] at h2
    rw [h2]

theorem find_sorted {G R : Type} (B : GeoBackend G R)
    (pgdf : Option (List (Pt × String))) (bd : ℚ) (g : G) :
    List.Sorted (· ≤ ·) (find_postcodes_for_geometry B pgdf bd g) := by
  rcases pgdf with _ | pcs
  · simp [find_postcodes_for_geometry]
  · simp only [find_postcodes_for_geometry]
    split
    · simp
    · exact sortedDedup_sorted _

theorem find_nodup {G R : Type} (B : GeoBackend G R)
    (pgdf : Option (List (Pt × String))) (bd : ℚ) (g : G) :
    (find_postcodes_for_geometry B pgdf bd g).Nodup := by
  rcases pgdf with _ | pcs
  · simp [find_postcodes_for_geometry]
  · simp only [find_postcodes_for_geometry]
    split
    · simp
    · exact sortedDedup_nodup _

/-! ### The claims -/

/-- C7: an edge whose geometry intersects zero loaded ward polygons follows
one fixed zero-match policy: this implementation silently drops it, emitting
0 segments for every such edge. -/
theorem c7_zero_match_policy {G R : Type} (B : GeoBackend G R)
    (wardCol ladCol : String) (rows : List (WardRow R))
    (fpc : G → List String) (nodes : Nat → Pt) (sid : Nat) (e : EdgeData G)
    (h : matchedWards B rows (resolveGeometry B nodes e) = []) :
    processEdge B wardCol ladCol rows fpc nodes sid e = [] :=
  processEdge_nil B wardCol ladCol rows fpc nodes sid e h

/-- C7 witness: a concrete edge outside both toy wards is dropped. -/
theorem c7_zero_match_policy_witness :
    matchedWards toyB [wardA, wardB] (resolveGeometry toyB nodesW edgeOutside) = []
    ∧ processEdge toyB "WD23NM" "LAD23NM" [wardA, wardB] (fun _ => []) nodesW 0
        edgeOutside = [] :=
  ⟨rfl, c7_zero_match_policy toyB "WD23NM" "LAD23NM" [wardA, wardB]
    (fun _ => []) nodesW 0 edgeOutside rfl⟩

/-- C2: for an edge whose geometry intersects exactly one ward polygon,
exactly one feature is emitted, its coordinate list is exactly the
coordinate list of the edge's resolved geometry, and it carries that ward's
name and district. -/
theorem c2_single_ward_exact {G R : Type} (B : GeoBackend G R)
    (wardCol ladCol : String) (rows : List (WardRow R))
    (fpc : G → List String) (nodes : Nat → Pt) (sid : Nat) (e : EdgeData G)
    (w : WardRow R)
    (h : matchedWards B rows (resolveGeometry B nodes e) = [w]) :
    (processEdge B wardCol ladCol rows fpc nodes sid e).length = 1
    ∧ ∀ s ∈ processEdge B wardCol ladCol rows fpc nodes sid e,
        s.coords = B.coords (resolveGeometry B nodes e)
        ∧ s.ward = w.attrs wardCol ∧ s.lad = w.attrs ladCol := by
  rw [processEdge_single B wardCol ladCol rows fpc nodes sid e w h]
  refine ⟨rfl, ?_⟩
  intro s hs
  simp only [List.mem_singleton] at hs
  subst hs
  exact ⟨rfl, rfl, rfl⟩

/-- C2 witness: the concrete single-ward toy edge. -/
theorem c2_single_ward_exact_witness :
    matchedWards toyB [wardA, wardB] (resolveGeometry toyB nodesW edgeSingle) = [wardA]
    ∧ (processEdge toyB "WD23NM" "LAD23NM" [wardA, wardB] (fun _ => []) nodesW 3
        edgeSingle).length = 1
    ∧ ∀ s ∈ processEdge toyB "WD23NM" "LAD23NM" [wardA, wardB] (fun _ => []) nodesW 3
        edgeSingle,
        s.coords = toyB.coords (resolveGeometry toyB nodesW edgeSingle)
        ∧ s.ward = wardA.attrs "WD23NM" ∧ s.lad = wardA.attrs "LAD23NM" := by
  have h := c2_single_ward_exact toyB "WD23NM" "LAD23NM" [wardA, wardB]
    (fun _ => []) nodesW 3 edgeSingle wardA rfl
  exact ⟨rfl, h.1, h.2⟩

/-- C5 (amended): zero-length parts are discarded in the multi-ward branch
only: every feature emitted for an edge intersecting two or more wards has
positive length, while the single-ward branch emits the resolved geometry
without any length check (see the counterexample, where a zero-length
feature is emitted). -/
theorem c5_multi_branch_positive {G R : Type} (B : GeoBackend G R)
    (wardCol ladCol : String) (rows : List (WardRow R))
    (fpc : G → List String) (nodes : Nat → Pt) (sid : Nat) (e : EdgeData G)
    (h2 : 2 ≤ (matchedWards B rows (resolveGeometry B nodes e)).length) :
    ∀ s ∈ processEdge B wardCol ladCol rows fpc nodes sid e,
      0 < B.length s.geom := by
  intro s hs
  rcases hm : matchedWards B rows (resolveGeometry B nodes e) with _ | ⟨a, _ | ⟨b, t⟩⟩
  · rw [hm] at h2; simp at h2
  · rw [hm] at h2; simp at h2
  · rw [processEdge_multi B wardCol ladCol rows fpc nodes sid e a b t hm] at hs
    rcases mem_emitWithIds hs with ⟨n, wl, hwl, rfl⟩
    have hk := (mem_multiParts hwl).2
    simp only [keptLines, List.mem_filter, decide_eq_true_iff] at hk
    exact hk.2

/-- C5 witness: the concrete two-ward toy edge; both emitted parts have
positive length. -/
theorem c5_multi_branch_positive_witness :
    2 ≤ (matchedWards toyB [wardA, wardB]
        (resolveGeometry toyB nodesW edgeMulti)).length
    ∧ ∀ s ∈ processEdge toyB "WD23NM" "LAD23NM" [wardA, wardB] (fun _ => [])
        nodesW 0 edgeMulti, 0 < toyB.length s.geom :=
  ⟨by decide, c5_multi_branch_positive toyB "WD23NM" "LAD23NM" [wardA, wardB]
    (fun _ => []) nodesW 0 edgeMulti (by decide)⟩

/-- C5 counterexample: a degenerate self-loop intersecting exactly one ward
is emitted through the single-ward branch with geometry length exactly 0, so
zero-length geometries are not discarded in every branch. -/
theorem c5_counterexample :
    (processEdge toyB "WD23NM" "LAD23NM" [wardA] (fun _ => []) nodesW 0
        edgeLoop).map (fun s => toyB.length s.geom) = [0] := by
  decide

/-- C4: in a successful run the emitted identifiers are exactly
0, 1, 2, …: pairwise distinct, with the n-th emitted feature carrying
identifier n. -/
theorem c4_identifiers {G R : Type} (B : GeoBackend G R) (wards : WardTable R)
    (pgdf : Option (List (Pt × String))) (bm : ℚ) (nodes : Nat → Pt)
    (edges : List (EdgeData G)) (segs : List (SegmentFeature G))
    (h : graph_to_segments B wards pgdf bm nodes edges = Except.ok segs) :
    (segs.map fun s => s.sid).Nodup
    ∧ ∀ (n : Nat) (hn : n < segs.length), (segs.get ⟨n, hn⟩).sid = n := by
  unfold graph_to_segments at h
  rcases hwc : pickWardNameCol wards.columns with msg | wc
  · rw [hwc] at h; cases h
  · rw [hwc] at h
    rcases hlc : pickLadNameCol wards.columns with msg | lc
    · rw [hlc] at h; cases h
    · rw [hlc] at h
      injection h with h
      subst h
      have hm := emitAll_sids B wc lc wards.rows
        (find_postcodes_for_geometry B pgdf (bm / 111000)) nodes 0 edges
      rw [← List.range_eq_range'] at hm
      constructor
      · rw [hm]; exact List.nodup_range _
      · intro n hn
        set L := emitAll B wc lc wards.rows
          (find_postcodes_for_geometry B pgdf (bm / 111000)) nodes 0 edges with hL
        have h3 : (L.map fun s => s.sid)[n]? = (List.range L.length)[n]? := by
          rw [hm]
        rw [List.getElem?_map, List.getElem?_eq_getElem hn,
          List.getElem?_eq_getElem (by simpa using hn)] at h3
        simp only [Option.map_some, Option.some_inj, List.getElem_range] at h3
        simpa [List.get_eq_getElem] using h3

/-- C4 witness: a concrete three-edge run emitting three features with
identifiers 0, 1, 2. -/
theorem c4_identifiers_witness :
    graph_to_segments toyB wTab none 30 nodesW [edgeSingle, edgeMulti, edgeOutside]
      = Except.ok c4segs
    ∧ (c4segs.map fun s => s.sid).Nodup
    ∧ ∀ (n : Nat) (hn : n < c4segs.length), (c4segs.get ⟨n, hn⟩).sid = n := by
  have h := c4_identifiers toyB wTab none 30 nodesW
    [edgeSingle, edgeMulti, edgeOutside] c4segs rfl
  exact ⟨rfl, h.1, h.2⟩

/-- C8: a missing postcode data source is not a failure: the loader returns
an absent result instead of raising, the postcode query answers the empty
list for every geometry, and the run is the same as a run with postcode data
except that every feature carries an empty postcode list. -/
theorem c8_absent_source {G R : Type} (B : GeoBackend G R)
    (wards : WardTable R) (bm : ℚ) (nodes : Nat → Pt)
    (edges : List (EdgeData G)) (lad_code : String)
    (pcs : List (Pt × String)) :
    get_postcode_centroids none lad_code = none
    ∧ (∀ g : G, find_postcodes_for_geometry B none (bm / 111000) g = [])
    ∧ graph_to_segments B wards none bm nodes edges
        = Except.map (List.map clearPostcodes)
            (graph_to_segments B wards (some pcs) bm nodes edges) := by
  refine ⟨rfl, fun g => rfl, ?_⟩
  unfold graph_to_segments
  rcases hwc : pickWardNameCol wards.columns with msg | wc
  · rfl
  · rcases hlc : pickLadNameCol wards.columns with msg | lc
    · rfl
    · show Except.ok _ = Except.map _ (Except.ok _)
      simp only [Except.map]
      congr 1
      rw [emitAll_clear]
      rfl

/-- C9: a postcode source that is present but yields zero rows for the
district behaves exactly like an absent one: the loader returns an empty
frame, the run on the empty frame equals the run with no postcode data at
all, and every emitted feature's postcode list is empty. -/
theorem c9_empty_source {G R : Type} (B : GeoBackend G R)
    (wards : WardTable R) (bm : ℚ) (nodes : Nat → Pt)
    (edges : List (EdgeData G)) (lad_code : String)
    (rows : List PostcodeRow)
    (hempty : rows.filter (fun r => r.lad == lad_code) = []) :
    get_postcode_centroids (some rows) lad_code = some []
    ∧ graph_to_segments B wards (some ([] : List (Pt × String))) bm nodes edges
        = graph_to_segments B wards none bm nodes edges
    ∧ ∀ segs, graph_to_segments B wards (some ([] : List (Pt × String))) bm
        nodes edges = Except.ok segs → ∀ s ∈ segs, s.postcodes = [] := by
  refine ⟨?_, rfl, ?_⟩
  · unfold get_postcode_centroids
    dsimp only
    rw [hempty]
    rfl
  · intro segs hseg s hs
    unfold graph_to_segments at hseg
    rcases hwc : pickWardNameCol wards.columns with msg | wc
    · rw [hwc] at hseg; cases hseg
    · rw [hwc] at hseg
      rcases hlc : pickLadNameCol wards.columns with msg | lc
      · rw [hlc] at hseg; cases hseg
      · rw [hlc] at hseg
        injection hseg with hseg
        subst hseg
        rcases mem_emitAll hs with ⟨sid2, e, _, hs2⟩
        rw [processEdge_postcodes hs2]
        rfl

/-- C9 witness: a postcode file holding only rows of another district. -/
theorem c9_empty_source_witness :
    [pcOtherLad].filter (fun r => r.lad == "E09000005") = []
    ∧ get_postcode_centroids (some [pcOtherLad]) "E09000005" = some []
    ∧ graph_to_segments toyB wTab (some ([] : List (Pt × String))) 30 nodesW
        [edgeSingle]
        = graph_to_segments toyB wTab none 30 nodesW [edgeSingle]
    ∧ ∀ segs, graph_to_segments toyB wTab (some ([] : List (Pt × String))) 30
        nodesW [edgeSingle] = Except.ok segs → ∀ s ∈ segs, s.postcodes = [] := by
  have h := c9_empty_source toyB wTab 30 nodesW [edgeSingle] "E09000005"
    [pcOtherLad] rfl
  exact ⟨rfl, h.1, h.2.1, h.2.2⟩

/-- C10: the two column discoveries fail asymmetrically: a missing ward-name
column is silently replaced by the first non-geometry column and the run
proceeds, while a missing LAD-name column makes the run return the
configuration error before any edge is processed. -/
theorem c10_asymmetric_discovery {G R : Type} (B : GeoBackend G R)
    (wards : WardTable R) (pgdf : Option (List (Pt × String))) (bm : ℚ)
    (nodes : Nat → Pt) (edges : List (EdgeData G)) :
    (∀ c rest, wards.columns.find? isWardNameCol = none →
        (wards.columns.filter fun c2 => c2 != "geometry") = c :: rest →
        pickWardNameCol wards.columns = Except.ok c)
    ∧ (∀ wc, pickWardNameCol wards.columns = Except.ok wc →
        wards.columns.find? isLadNameCol = none →
        graph_to_segments B wards pgdf bm nodes edges
          = Except.error "Could not find LAD name column (LAD*NM) in the data")
    ∧ (∀ c rest lc, wards.columns.find? isWardNameCol = none →
        (wards.columns.filter fun c2 => c2 != "geometry") = c :: rest →
        wards.columns.find? isLadNameCol = some lc →
        graph_to_segments B wards pgdf bm nodes edges
          = Except.ok (emitAll B c lc wards.rows
              (find_postcodes_for_geometry B pgdf (bm / 111000)) nodes 0
              edges)) := by
  refine ⟨?_, ?_, ?_⟩
  · intro c rest h1 h2
    unfold pickWardNameCol
    rw [h1, h2]
    rfl
  · intro wc hwc hlad
    unfold graph_to_segments pickLadNameCol
    rw [hwc, hlad]
  · intro c rest lc h1 h2 hlad
    unfold graph_to_segments
    rw [show pickWardNameCol wards.columns = Except.ok c by
      unfold pickWardNameCol; rw [h1, h2]; rfl]
    unfold pickLadNameCol
    rw [hlad]

/-- C10 witness: with columns `["objectid", "geometry"]` the ward heuristic
falls back to "objectid" and the missing LAD column aborts the run; with
columns `["FID", "LAD23NM", "geometry"]` the run proceeds on the fallback
ward column "FID". -/
theorem c10_asymmetric_discovery_witness :
    pickWardNameCol ["objectid", "geometry"] = Except.ok "objectid"
    ∧ graph_to_segments toyB wTabNoLad none 30 nodesW [edgeSingle]
        = Except.error "Could not find LAD name column (LAD*NM) in the data"
    ∧ graph_to_segments toyB wTabFallback none 30 nodesW [edgeSingle]
        = Except.ok (emitAll toyB "FID" "LAD23NM" wTabFallback.rows
            (find_postcodes_for_geometry toyB none ((30 : ℚ) / 111000)) nodesW 0
            [edgeSingle]) := by
  have h1 := (c10_asymmetric_discovery toyB wTabNoLad none 30 nodesW
    [edgeSingle]).1 "objectid" [] rfl rfl
  have h2 := (c10_asymmetric_discovery toyB wTabNoLad none 30 nodesW
    [edgeSingle]).2.1 "objectid" h1 rfl
  have h3 := (c10_asymmetric_discovery toyB wTabFallback none 30 nodesW
    [edgeSingle]).2.2 "FID" ["LAD23NM"] "LAD23NM" rfl rfl rfl
  exact ⟨h1, h2, h3⟩

/-- C3: with a postcode spatial index available (nonempty postcode frame),
every emitted feature's postcode list is sorted, duplicate-free, and holds
exactly the codes of the postcode points lying within the buffer distance of
that feature's geometry.  The index query is spec-modelled (`withinBuffer`). -/
theorem c3_postcode_lists {G R : Type} (B : GeoBackend G R)
    (wards : WardTable R) (pcs : List (Pt × String)) (bm : ℚ)
    (nodes : Nat → Pt) (edges : List (EdgeData G))
    (segs : List (SegmentFeature G)) (s : SegmentFeature G)
    (hrun : graph_to_segments B wards (some pcs) bm nodes edges = Except.ok segs)
    (hne : pcs ≠ []) (hs : s ∈ segs) :
    List.Sorted (· ≤ ·) s.postcodes ∧ s.postcodes.Nodup
    ∧ ∀ c, c ∈ s.postcodes ↔ ∃ pc ∈ pcs,
        withinBuffer (bm / 111000) (B.coords s.geom) pc.1 = true ∧ pc.2 = c := by
  have hpost : s.postcodes
      = find_postcodes_for_geometry B (some pcs) (bm / 111000) s.geom := by
    unfold graph_to_segments at hrun
    rcases hwc : pickWardNameCol wards.columns with msg | wc
    · rw [hwc] at hrun; cases hrun
    · rw [hwc] at hrun
      rcases hlc : pickLadNameCol wards.columns with msg | lc
      · rw [hlc] at hrun; cases hrun
      · rw [hlc] at hrun
        injection hrun with hrun
        subst hrun
        rcases mem_emitAll hs with ⟨sid2, e, _, hs2⟩
        exact processEdge_postcodes hs2
  rw [hpost]
  exact ⟨find_sorted B (some pcs) _ s.geom, find_nodup B (some pcs) _ s.geom,
    fun c => mem_find_some B pcs _ s.geom c hne⟩

/-- C3 witness: the toy single-edge run with postcode data; the emitted
feature's list is exactly the one near code, sorted and deduplicated. -/
theorem c3_postcode_lists_witness :
    graph_to_segments toyB wTab (some pcsW) 111000 nodesW [edgeSingle]
      = Except.ok c3segs
    ∧ pcsW ≠ []
    ∧ c3s0 ∈ c3segs
    ∧ (List.Sorted (· ≤ ·) c3s0.postcodes ∧ c3s0.postcodes.Nodup
      ∧ ∀ c, c ∈ c3s0.postcodes ↔ ∃ pc ∈ pcsW,
          withinBuffer ((111000 : ℚ) / 111000) (toyB.coords c3s0.geom) pc.1
            = true ∧ pc.2 = c) := by
  have hshape : c3segs = c3s0 :: c3segs.tail := rfl
  have hmem : c3s0 ∈ c3segs := by
    rw [hshape]; exact List.mem_cons_self _ _
  exact ⟨rfl, by decide, hmem,
    c3_postcode_lists toyB wTab pcsW 111000 nodesW [edgeSingle] c3segs c3s0
      rfl (by decide) hmem⟩

/-- C6: postcode assignment is monotone in the configured buffer distance:
raising the buffer from b1 to b2 (0 ≤ b1 ≤ b2) never removes a code from
the list computed for a geometry. -/
theorem c6_buffer_monotone {G R : Type} (B : GeoBackend G R)
    (pgdf : Option (List (Pt × String))) (g : G) (b1 b2 : ℚ) (c : String)
    (h0 : 0 ≤ b1) (h12 : b1 ≤ b2)
    (hc : c ∈ find_postcodes_for_geometry B pgdf (b1 / 111000) g) :
    c ∈ find_postcodes_for_geometry B pgdf (b2 / 111000) g := by
  rcases pgdf with _ | pcs
  · simp [find_postcodes_for_geometry] at hc
  · by_cases hpc : pcs = []
    · subst hpc
      simp [find_postcodes_for_geometry] at hc
    · have hne : pcs ≠ [] := hpc
      rw [mem_find_some B pcs _ g c hne] at hc
      rcases hc with ⟨pc, hmem2, hwb, hcode⟩
      rw [mem_find_some B pcs _ g c hne]
      refine ⟨pc, hmem2, ?_, hcode⟩
      have h0b : (0 : ℚ) ≤ b1 / 111000 := div_nonneg h0 (by norm_num)
      have h12b : b1 / 111000 ≤ b2 / 111000 :=
        (div_le_div_iff_of_pos_right (by norm_num)).mpr h12
      exact withinBuffer_mono _ _ h0b h12b hwb

/-- C6 witness: a code found at buffer 0 (point exactly on the line) is
still found at buffer 111000. -/
theorem c6_buffer_monotone_witness :
    (0 : ℚ) ≤ 0 ∧ (0 : ℚ) ≤ 111000
    ∧ "HA0 1AA" ∈ find_postcodes_for_geometry toyB
        (some [((0, 0), "HA0 1AA")]) ((0 : ℚ) / 111000)
        ([((0 : ℚ), (0 : ℚ)), (1, 0)] : ToyG)
    ∧ "HA0 1AA" ∈ find_postcodes_for_geometry toyB
        (some [((0, 0), "HA0 1AA")]) ((111000 : ℚ) / 111000)
        ([((0 : ℚ), (0 : ℚ)), (1, 0)] : ToyG) := by
  have hc : "HA0 1AA" ∈ find_postcodes_for_geometry toyB
      (some [((0, 0), "HA0 1AA")]) ((0 : ℚ) / 111000)
      ([((0 : ℚ), (0 : ℚ)), (1, 0)] : ToyG) := by
    simp only [find_postcodes_for_geometry, withinBuffer, pairsOf, segWithin,
      distSq, sortedDedup, toyB, Rat.div_def, Rat.inv_def, Rat.sub_def',
      Rat.add_def', Rat.mul_def]
    decide
  exact ⟨by decide, by decide, hc,
    c6_buffer_monotone toyB (some [((0, 0), "HA0 1AA")])
      ([((0 : ℚ), (0 : ℚ)), (1, 0)] : ToyG) 0 111000 "HA0 1AA" (by decide)
      (by decide) hc⟩

/-- C1 (amended): for an edge intersecting two or more wards, provided every
per-ward intersection succeeds and yields only line parts of positive
length, every emitted feature lies inside the ward it is tagged with and the
union of the emitted geometries equals the edge's resolved geometry
intersected with the union of all ward polygons.  (An edge intersecting
exactly one ward is emitted whole and may extend outside that ward — see the
counterexample.) -/
theorem c1_multi_ward_coverage {G R X : Type} (B : GeoBackend G R)
    (S : GeoSem G R X B) (wardCol ladCol : String) (rows : List (WardRow R))
    (fpc : G → List String) (nodes : Nat → Pt) (sid : Nat) (e : EdgeData G)
    (hm : 2 ≤ (matchedWards B rows (resolveGeometry B nodes e)).length)
    (hclean : ∀ w ∈ matchedWards B rows (resolveGeometry B nodes e),
        cleanB B (resolveGeometry B nodes e) w = true) :
    (∀ s ∈ processEdge B wardCol ladCol rows fpc nodes sid e,
        ∃ w ∈ matchedWards B rows (resolveGeometry B nodes e),
          s.ward = w.attrs wardCol ∧ s.lad = w.attrs ladCol
          ∧ S.gpts s.geom ⊆ S.rpts w.geom)
    ∧ (⋃ s ∈ processEdge B wardCol ladCol rows fpc nodes sid e, S.gpts s.geom)
        = S.gpts (resolveGeometry B nodes e) ∩ ⋃ w ∈ rows, S.rpts w.geom := by
  rcases hmw : matchedWards B rows (resolveGeometry B nodes e)
    with _ | ⟨a, _ | ⟨b, t⟩⟩
  · rw [hmw] at hm; simp at hm
  · rw [hmw] at hm; simp at hm
  · rw [processEdge_multi B wardCol ladCol rows fpc nodes sid e a b t hmw]
    rw [hmw] at hclean
    constructor
    · intro s hs
      rcases mem_emitWithIds hs with ⟨n, wl, hwl, rfl⟩
      have h1 := mem_multiParts hwl
      refine ⟨wl.1, h1.1, rfl, rfl, ?_⟩
      have hcw : cleanB B (resolveGeometry B nodes e) wl.1 = true :=
        hclean wl.1 h1.1
      have hku := keptLines_union S (resolveGeometry B nodes e) wl.1 hcw
      have hsub : S.gpts wl.2
          ⊆ ⋃ l ∈ keptLines B (resolveGeometry B nodes e) wl.1, S.gpts l := by
        intro p hp
        exact Set.mem_iUnion₂.mpr ⟨wl.2, h1.2, hp⟩
      rw [hku] at hsub
      exact hsub.trans Set.inter_subset_right
    · rw [biUnion_emitWithIds
        (fun i wl => mkSegment B e wardCol ladCol wl.1 (fpc wl.2) i wl.2)
        (fun s => S.gpts s.geom) (fun wl => S.gpts wl.2) (fun n x => rfl) sid
        (multiParts B (resolveGeometry B nodes e) (a :: b :: t))]
      rw [multiParts_union S (resolveGeometry B nodes e) (a :: b :: t) hclean]
      rw [← hmw, matched_union S (resolveGeometry B nodes e) rows]
      exact (Set.inter_iUnion₂ _ _).symm

/-- C1 counterexample: an edge intersecting exactly one ward while extending
beyond it is emitted whole by the single-ward branch, so the point (2,0)
appears in the union of the emitted geometries but not in the edge geometry
intersected with the union of all ward polygons, and the emitted feature is
not contained in the ward it is tagged with. -/
theorem c1_counterexample :
    (((2 : ℚ), (0 : ℚ)) : Pt) ∈
        (⋃ s ∈ processEdge toyB "WD23NM" "LAD23NM" [wardA] (fun _ => [])
            nodesW 0 edgeCross, toySem.gpts s.geom)
    ∧ (((2 : ℚ), (0 : ℚ)) : Pt) ∉
        toySem.gpts (resolveGeometry toyB nodesW edgeCross)
          ∩ ⋃ w ∈ [wardA], toySem.rpts w.geom
    ∧ ¬ (toySem.gpts ((processEdge toyB "WD23NM" "LAD23NM" [wardA]
          (fun _ => []) nodesW 0 edgeCross).headD dummySeg).geom
        ⊆ toySem.rpts wardA.geom) := by
  have hm : matchedWards toyB [wardA] (resolveGeometry toyB nodesW edgeCross)
      = [wardA] := rfl
  rw [processEdge_single toyB "WD23NM" "LAD23NM" [wardA] (fun _ => []) nodesW 0
    edgeCross wardA hm]
  refine ⟨?_, ?_, ?_⟩
  · rw [listUnion_cons]
    refine Set.mem_union_left _ ?_
    show (((2 : ℚ), (0 : ℚ)) : Pt)
      ∈ ([((0 : ℚ), (0 : ℚ)), (1, 0), (2, 0)] : ToyG)
    decide
  · rintro ⟨h1, h2⟩
    rw [listUnion_cons] at h2
    rcases h2 with h2 | h2
    · exact absurd
        (show (((2 : ℚ), (0 : ℚ)) : Pt)
            ∈ ([((0 : ℚ), (0 : ℚ)), ((1 : ℚ), (0 : ℚ))] : ToyG) from h2)
        (by decide)
    · simp at h2
  · intro hsub
    have hin : (((2 : ℚ), (0 : ℚ)) : Pt)
        ∈ ([((0 : ℚ), (0 : ℚ)), (1, 0), (2, 0)] : ToyG) := by decide
    have h3 := hsub hin
    exact absurd
      (show (((2 : ℚ), (0 : ℚ)) : Pt)
          ∈ ([((0 : ℚ), (0 : ℚ)), ((1 : ℚ), (0 : ℚ))] : ToyG) from h3)
      (by decide)

/-- C1 witness: the concrete two-ward toy edge satisfies the amended
coverage claim: both emitted parts lie in their tagged wards and their union
is the edge geometry intersected with the union of the two wards. -/
theorem c1_multi_ward_coverage_witness :
    2 ≤ (matchedWards toyB [wardA, wardB]
        (resolveGeometry toyB nodesW edgeMulti)).length
    ∧ (∀ w ∈ matchedWards toyB [wardA, wardB]
        (resolveGeometry toyB nodesW edgeMulti),
        cleanB toyB (resolveGeometry toyB nodesW edgeMulti) w = true)
    ∧ ((∀ s ∈ processEdge toyB "WD23NM" "LAD23NM" [wardA, wardB] (fun _ => [])
          nodesW 0 edgeMulti,
          ∃ w ∈ matchedWards toyB [wardA, wardB]
            (resolveGeometry toyB nodesW edgeMulti),
            s.ward = w.attrs "WD23NM" ∧ s.lad = w.attrs "LAD23NM"
            ∧ toySem.gpts s.geom ⊆ toySem.rpts w.geom)
      ∧ (⋃ s ∈ processEdge toyB "WD23NM" "LAD23NM" [wardA, wardB]
            (fun _ => []) nodesW 0 edgeMulti, toySem.gpts s.geom)
          = toySem.gpts (resolveGeometry toyB nodesW edgeMulti)
            ∩ ⋃ w ∈ [wardA, wardB], toySem.rpts w.geom) :=
  ⟨by decide, by decide,
    c1_multi_ward_coverage toyB toySem "WD23NM" "LAD23NM" [wardA, wardB]
      (fun _ => []) nodesW 0 edgeMulti (by decide) (by decide)⟩

end SegmentProcessor
